import Mathlib

/-!
Verification of the name-normalization and reconciliation pipeline of the
India crime dashboard repository (`app/streamlit_app.py`) and of its CSV
schema utilities (`utils/data_prep.py`).

Strings are embedded as `List Char` (Python `str` values are sequences
of code points; all data relevant to the claims is ASCII).  Pandas cell
values are embedded as `PdVal` (`na` for missing/NaN, `num` for numeric
scalars with exact rational arithmetic, `str` for text cells — a column
produced by `pd.read_csv` is either numeric, holding `num`/`na`, or
object, holding `str`/`na`).  Fallible Python code (raised exceptions,
`st.stop()` short-circuits) is embedded with `Option`/`Except`.
-/

/-- Python `str.isspace` on the ASCII range: the whitespace characters
recognised by `str.split`/`str.strip` (space, tab, newline, carriage
return, vertical tab, form feed).  All characters reaching these
operations in `normalize_text` are ASCII (they run after the
ASCII folding step). -/
def isPySpace (c : Char) : Bool :=
  c == ' ' || c == '\t' || c == '\n' || c == '\x0d' || c == '\x0b' || c == '\x0c'

/-- Python `str.lower` on the ASCII range (`'A'..'Z'` shift by 32, all
other characters unchanged).  In `normalize_text` lowering runs after
ASCII folding, so only ASCII characters ever reach it. -/
def pyLower (c : Char) : Char :=
  if 65 ≤ c.toNat ∧ c.toNat ≤ 90 then Char.ofNat (c.toNat + 32) else c

/-- Unicode NFKD compatibility decomposition of a single character,
modelling Python `unicodedata.normalize("NFKD", s)` on the characters a
state-name cell can contain.  ASCII characters are NFKD-invariant; a
representative table of Latin letters with combining marks is included;
every other character decomposes to itself (if it is non-ASCII it is then
dropped by the `encode("ascii","ignore")` step, see `nfkdAsciiChar`). -/
def nfkdDecomp (c : Char) : List Char :=
  if c == '\u00e0' then ['a', '\u0300'] else
  if c == '\u00e1' then ['a', '\u0301'] else
  if c == '\u00e8' then ['e', '\u0300'] else
  if c == '\u00e9' then ['e', '\u0301'] else
  if c == '\u00ec' then ['i', '\u0300'] else
  if c == '\u00ed' then ['i', '\u0301'] else
  if c == '\u00ef' then ['i', '\u0308'] else
  if c == '\u00f2' then ['o', '\u0300'] else
  if c == '\u00f3' then ['o', '\u0301'] else
  if c == '\u00f9' then ['u', '\u0300'] else
  if c == '\u00fa' then ['u', '\u0301'] else
  if c == '\u00fc' then ['u', '\u0308'] else
  if c == '\u00f1' then ['n', '\u0303'] else
  if c == '\u00c0' then ['A', '\u0300'] else
  if c == '\u00c1' then ['A', '\u0301'] else
  if c == '\u00c8' then ['E', '\u0300'] else
  if c == '\u00c9' then ['E', '\u0301'] else
  if c == '\u00cc' then ['I', '\u0300'] else
  if c == '\u00cd' then ['I', '\u0301'] else
  if c == '\u00cf' then ['I', '\u0308'] else
  if c == '\u00d2' then ['O', '\u0300'] else
  if c == '\u00d3' then ['O', '\u0301'] else
  if c == '\u00d9' then ['U', '\u0300'] else
  if c == '\u00da' then ['U', '\u0301'] else
  if c == '\u00dc' then ['U', '\u0308'] else
  if c == '\u00d1' then ['N', '\u0303'] else
  [c]

/-- One character of `unicodedata.normalize("NFKD", s).encode("ascii",
"ignore")`: decompose, then keep only the code points below 128. -/
def nfkdAsciiChar (c : Char) : List Char :=
  if c.toNat ≤ 127 then [c] else (nfkdDecomp c).filter (fun d => d.toNat ≤ 127)

/-- `unicodedata.normalize("NFKD", s).encode("ascii", "ignore").decode("utf-8")`
from `normalize_text` (line 24 of `app/streamlit_app.py`). -/
def asciiFold : List Char → List Char
  | [] => []
  | c :: cs => nfkdAsciiChar c ++ asciiFold cs

/-- Python `s.replace("&", "and")` (the pattern is the single character
`'&'`, so the replacement is per character). -/
def replaceAmp : List Char → List Char
  | [] => []
  | c :: cs => (if c == '&' then ['a', 'n', 'd'] else [c]) ++ replaceAmp cs

/-- Python `s.strip()`: drop leading and trailing whitespace. -/
def pyStrip (l : List Char) : List Char :=
  ((l.dropWhile isPySpace).reverse.dropWhile isPySpace).reverse

/-- Accumulator pass of Python `s.split()`: maximal runs of
non-whitespace characters, in order; `acc` holds the reversed current
run. -/
def pyWordsAux : List Char → List Char → List (List Char)
  | [], acc => if acc.isEmpty then [] else [acc.reverse]
  | c :: cs, acc =>
    if isPySpace c then
      if acc.isEmpty then pyWordsAux cs [] else acc.reverse :: pyWordsAux cs []
    else pyWordsAux cs (c :: acc)

/-- Python `s.split()` (split on whitespace runs, no empty words). -/
def pyWords (l : List Char) : List (List Char) := pyWordsAux l []

/-- Python `" ".join(ws)`. -/
def joinWords : List (List Char) → List Char
  | [] => []
  | [w] => w
  | w :: ws => w ++ ' ' :: joinWords ws

/-- Python `s.lower()` over a whole string. -/
def lowerStr (l : List Char) : List Char := l.map pyLower

/-- The function `normalize_text` of `app/streamlit_app.py` (lines
20-28).  `none` models a missing value (`pd.isna(s)` true), which yields
the empty string; otherwise: NFKD-fold to ASCII, strip, replace `&` by
`and`, collapse whitespace runs to single spaces, lower-case. -/
def normalize_text (s : Option (List Char)) : List Char :=
  match s with
  | none => []
  | some s => lowerStr (joinWords (pyWords (replaceAmp (pyStrip (asciiFold s)))))

/-- The static alias table `COMMON_NAME_MAP` of `app/streamlit_app.py`
(lines 30-41), as an association list in source order. -/
def COMMON_NAME_MAP : List (List Char × List Char) :=
  [ (("odisha").data, ("orissa").data),
    (("uttarakhand").data, ("uttaranchal").data),
    (("pondicherry").data, ("puducherry").data),
    (("puducherry").data, ("puducherry").data),
    (("nct of delhi").data, ("delhi").data),
    (("delhi (nct)").data, ("delhi").data),
    (("andaman & nicobar islands").data, ("andaman and nicobar").data),
    (("andaman and nicobar islands").data, ("andaman and nicobar").data),
    (("dadra & nagar haveli and daman & diu").data,
     ("dadra and nagar haveli and daman and diu").data),
    (("dadra and nagar haveli and daman and diu").data,
     ("dadra and nagar haveli and daman and diu").data) ]

/-- The function `apply_common_map` of `app/streamlit_app.py` (lines
43-45): normalize, then return the alias-table entry when present, the
normalized text otherwise (`dict.get(n, n)`). -/
def apply_common_map (name : Option (List Char)) : List Char :=
  let n := normalize_text name
  (List.lookup n COMMON_NAME_MAP).getD n

/-- A pandas cell value: missing (`NaN`/`None`), an exact numeric scalar,
or a text cell.  A column read by `pd.read_csv` is either numeric
(holding `num`/`na`) or object (holding `str`/`na`). -/
inductive PdVal where
  | na : PdVal
  | num : Rat → PdVal
  | str : List Char → PdVal
deriving DecidableEq, Repr

/-- Whether a cell is missing (`pd.isna`). -/
def PdVal.isNA : PdVal → Bool
  | .na => true
  | _ => false

/-- Whether a cell is a numeric scalar. -/
def PdVal.isNum : PdVal → Bool
  | .num _ => true
  | _ => false

/-- Whether a cell is a text cell. -/
def PdVal.isStr : PdVal → Bool
  | .str _ => true
  | _ => false

/-- Sum of the numeric cells of a list, counting missing (and non-numeric)
cells as zero. -/
def sumNums : List PdVal → Rat
  | [] => 0
  | .num q :: vs => q + sumNums vs
  | _ :: vs => sumNums vs

/-- Concatenation of the text cells of a list (Python `+` reduction over
strings, as pandas performs when summing an object column). -/
def strConcat : List PdVal → List Char
  | [] => []
  | .str s :: vs => s ++ strConcat vs
  | _ :: vs => strConcat vs

/-- Pandas reduction `Series.sum` over one group of cells: missing cells
are skipped (`skipna`, with `min_count=0` an empty group sums to `0`);
the remaining cells are reduced with `+`, which is numeric addition for a
numeric column and string concatenation for an object column of strings;
a mixed numeric/text group raises `TypeError`, modelled by `none`. -/
def pdSum (vs : List PdVal) : Option PdVal :=
  let p := vs.filter (fun v => !(v.isNA))
  if p.all PdVal.isNum then some (.num (sumNums p))
  else if p.all PdVal.isStr then some (.str (strConcat p))
  else none

/-- Apply `f` to every element, succeeding only when every application
succeeds (used to thread the fallible per-group sum through a whole
aggregation). -/
def mapOptionAll (f : α → Option β) : List α → Option (List β)
  | [] => some []
  | a :: as =>
    match f a, mapOptionAll f as with
    | some b, some bs => some (b :: bs)
    | _, _ => none

/-- Python string `≤`: lexicographic comparison by code point. -/
def strLe : List Char → List Char → Bool
  | [], _ => true
  | _ :: _, [] => false
  | a :: as, b :: bs =>
    if a.toNat < b.toNat then true
    else if b.toNat < a.toNat then false
    else strLe as bs

/-- Propositional form of `strLe`, for the sorting lemmas. -/
def strLeP (a b : List Char) : Prop := strLe a b = true

instance : DecidableRel strLeP := fun a b =>
  inferInstanceAs (Decidable (strLe a b = true))

/-- The grouped-and-summed aggregation
`df.groupby("__state_norm", as_index=False)[metric_col].sum()` of
`app/streamlit_app.py` (line 164): the distinct keys in ascending order
(pandas `groupby` sorts its keys), each paired with the pandas sum of the
metric cells of its rows; `none` when some group sum raises. -/
def groupbySum (rows : List (List Char × PdVal)) : Option (List (List Char × PdVal)) :=
  mapOptionAll
    (fun k => (pdSum ((rows.filter (fun r => r.1 == k)).map Prod.snd)).map (fun v => (k, v)))
    (List.insertionSort strLeP (rows.map Prod.fst).dedup)

/-- Lines 160-164 of `app/streamlit_app.py`: strip each name cell
(`astype(str).str.strip()`), canonicalize it with `apply_common_map`,
then group by the canonical name and sum the metric column. -/
def aggregateRecords (records : List (List Char × PdVal)) : Option (List (List Char × PdVal)) :=
  groupbySum (records.map (fun r => (apply_common_map (some (pyStrip r.1)), r.2)))

/-- Lines 173-175 of `app/streamlit_app.py`: every boundary region (its
canonical `__state_norm` name) receives
`metric_value = float(state_to_value.get(norm, 0.0))` — the aggregate
value for its canonical name when present, `0.0` otherwise (`float` on an
exact numeric aggregate value is the identity in this embedding). -/
def annotateRegions (regions : List (List Char)) (agg : List (List Char × Rat)) :
    List (List Char × Rat) :=
  regions.map (fun r => (r, (List.lookup r agg).getD 0))

/-- Lines 167-168 of `app/streamlit_app.py`:
`unmatched = sorted(list(csv_norm_set - geo_norm_set))` — the canonical
names of the aggregate (a set, modelled by `dedup`) that are not among
the regions' canonical names, sorted ascending. -/
def unmatchedNames (aggKeys geoKeys : List (List Char)) : List (List Char) :=
  List.insertionSort strLeP
    (aggKeys.dedup.filter (fun k => !(List.contains geoKeys k)))

/-- The ordered preference list of `detect_state_key_from_props`
(line 49 of `app/streamlit_app.py`). -/
def PROP_PREFS : List (List Char) :=
  [ ("name_1").data, ("name").data, ("st_nm").data,
    ("st_name").data, ("state").data, ("state_name").data ]

/-- Python `ch.isalpha()` restricted to ASCII letters (GeoJSON property
values in scope are ASCII). -/
def isAsciiAlpha (c : Char) : Bool :=
  (65 ≤ c.toNat && c.toNat ≤ 90) || (97 ≤ c.toNat && c.toNat ≤ 122)

/-- Lines 54-57 of `app/streamlit_app.py`: a property value is a
plausible place name when its length is strictly between 2 and 40 and
every character is alphabetic, whitespace, `&` or `-`. -/
def plausiblePlaceName (s : List Char) : Bool :=
  (decide (2 < s.length) && decide (s.length < 40)) &&
  s.all (fun c => isAsciiAlpha c || isPySpace c || c == '&' || c == '-')

/-- The function `detect_state_key_from_props` of `app/streamlit_app.py`
(lines 47-58).  Properties are an ordered association list of key/value
strings (values are their Python `str()` rendering).  First preference:
the first entry of `PROP_PREFS` that matches some lower-cased key, then
the first key (in original casing) matching it; second: the first
property whose value is a plausible place name; last resort:
`list(props.keys())[0]`, whose `IndexError` on an empty mapping is
modelled by `none`. -/
def detect_state_key_from_props (props : List (List Char × List Char)) :
    Option (List Char) :=
  let keys := props.map Prod.fst
  match PROP_PREFS.find? (fun cand => keys.any (fun k => lowerStr k == cand)) with
  | some cand => keys.find? (fun k => lowerStr k == cand)
  | none =>
    match props.find? (fun kv => plausiblePlaceName kv.2) with
    | some kv => some kv.1
    | none => keys.head?

/-- Substring containment (Python `pat in hay`): some suffix of `hay`
starts with `pat`. -/
def startsWithChars : List Char → List Char → Bool
  | _, [] => true
  | [], _ :: _ => false
  | h :: hs, p :: ps => h == p && startsWithChars hs ps

/-- Substring containment (Python `pat in hay`). -/
def containsSub (pat : List Char) : List Char → Bool
  | [] => pat.isEmpty
  | h :: hs => startsWithChars (h :: hs) pat || containsSub pat hs

/-- The pandas dtype of an uploaded-CSV column: numeric (all cells parsed
as numbers by `pd.read_csv`) or object (text cells). -/
inductive PdDtype where
  | numericD : PdDtype
  | objectD : PdDtype
deriving DecidableEq, Repr

/-- One column of the uploaded CSV after `pd.read_csv`: its header, its
inferred dtype and its cells (a numeric column holds `num`/`na` cells, an
object column holds `str`/`na` cells). -/
structure PdCol where
  header : List Char
  dtype : PdDtype
  values : List PdVal
deriving DecidableEq, Repr

/-- Line 129 of `app/streamlit_app.py`: a column is a state-column
candidate when its lower-cased header contains `"state"` or `"ut"`. -/
def stateHeaderMatch (c : PdCol) : Bool :=
  containsSub (("state").data) (lowerStr c.header) ||
  containsSub (("ut").data) (lowerStr c.header)

/-- Lines 129-139 of `app/streamlit_app.py`: the state column is the
first header-matching column; otherwise the first object-dtype column;
otherwise the run stops with the `MissingNameColumn`-style error,
modelled by `none`. -/
def detectStateCol (cols : List PdCol) : Option (List Char) :=
  match cols.find? stateHeaderMatch with
  | some c => some c.header
  | none => (cols.find? (fun c => c.dtype == PdDtype.objectD)).map PdCol.header

/-- Digit run to a natural number. -/
def digitsToNat (l : List Char) : Nat :=
  l.foldl (fun a c => a * 10 + (c.toNat - 48)) 0

/-- Parse of a numeric string by `pd.to_numeric`: optional surrounding
whitespace, optional sign, a decimal integer with an optional fractional
part.  (Scientific notation is not needed by any claim and is omitted.) -/
def parseNumeric (s : List Char) : Option Rat :=
  let s := pyStrip s
  let sign : Rat := if s.head? == some '-' then -1 else 1
  let s := if s.head? == some '-' || s.head? == some '+' then s.tail else s
  let ip := s.takeWhile (fun c => !(c == '.'))
  let rest := s.drop ip.length
  if !(ip.all Char.isDigit) then none
  else
    match rest with
    | [] => if ip.isEmpty then none else some (sign * (digitsToNat ip : Rat))
    | '.' :: fp =>
      if ip.isEmpty && fp.isEmpty then none
      else if fp.all Char.isDigit then
        some (sign * ((digitsToNat ip : Rat) +
          (digitsToNat fp : Rat) / ((10 : Rat) ^ fp.length)))
      else none
    | _ => none

/-- A cell as seen by `pd.to_numeric`: numeric cells pass through, text
cells are parsed, missing cells fail (the probe drops them first). -/
def toNumericVal : PdVal → Option Rat
  | .na => none
  | .num q => some q
  | .str s => parseNumeric s

/-- Lines 146-148 of `app/streamlit_app.py`: the numeric-coercion probe
`pd.to_numeric(df_raw[c].dropna().iloc[:20])` succeeds when the first 20
non-missing cells all parse as numbers. -/
def probeOk (vals : List PdVal) : Bool :=
  ((vals.filter (fun v => !(v.isNA))).take 20).all (fun v => (toNumericVal v).isSome)

/-- Lines 143-150 of `app/streamlit_app.py`: the numeric candidate
columns are all numeric-dtype columns (`select_dtypes(include=["number"])`),
followed by the non-numeric columns whose first 20 non-missing cells pass
the coercion probe, in column order. -/
def numericCandidates (cols : List PdCol) : List (List Char) :=
  (cols.filter (fun c => c.dtype == PdDtype.numericD)).map PdCol.header ++
  ((cols.filter (fun c => !(c.dtype == PdDtype.numericD))).filter
    (fun c => probeOk c.values)).map PdCol.header

/-- The two fatal configuration failures of the upload pipeline
(`st.error` + `st.stop()`, lines 138-139 and 151-153 of
`app/streamlit_app.py`). -/
inductive PipeErr where
  | missingName : PipeErr
  | missingMetric : PipeErr
deriving DecidableEq, Repr

/-- Lines 129-153 of `app/streamlit_app.py` in order: detect the state
column (stopping with the `MissingNameColumn`-style error when there is
none), then collect the numeric candidate columns (stopping with the
`MissingMetricColumn`-style error when there are none).  `st.stop()`
halts the script, so at most one of the two errors is ever reported. -/
def pipelineChecks (cols : List PdCol) : Except PipeErr (List Char × List (List Char)) :=
  match detectStateCol cols with
  | none => .error .missingName
  | some sc =>
    let nc := numericCandidates cols
    if nc.isEmpty then .error .missingMetric else .ok (sc, nc)

/-- A pandas DataFrame: an ordered association of column names to cell
lists (`utils/data_prep.py` works with whole columns only). -/
abbrev PdFrame := List (List Char × List PdVal)

/-- Column access `df[n]`: the cells of the first column named `n`. -/
def colNamed (df : PdFrame) (n : List Char) : Option (List PdVal) :=
  (df.find? (fun c => c.1 == n)).map Prod.snd

/-- Replace the cells of every column named `n` (pandas
`df[n] = series` on an existing column). -/
def setColVals (df : PdFrame) (n : List Char) (vs : List PdVal) : PdFrame :=
  df.map (fun c => if c.1 == n then (c.1, vs) else c)

/-- Pandas `df[n] = series`: replace the column when it exists, append it
otherwise. -/
def setColPd (df : PdFrame) (n : List Char) (vs : List PdVal) : PdFrame :=
  if df.any (fun c => c.1 == n) then setColVals df n vs else df ++ [(n, vs)]

/-- Truncation of a rational toward zero, as numpy `astype(int)`
truncates floats. -/
def ratTrunc (q : Rat) : Int :=
  if 0 ≤ q then Rat.floor q else -(Rat.floor (-q))

/-- Parse of an integer string by `astype(int)` (Python `int(s)`):
optional surrounding whitespace, optional sign, a non-empty digit run. -/
def parseIntStr (s : List Char) : Option Int :=
  let s := pyStrip s
  let sign : Int := if s.head? == some '-' then -1 else 1
  let s := if s.head? == some '-' || s.head? == some '+' then s.tail else s
  if s.isEmpty || !(s.all Char.isDigit) then none
  else some (sign * (digitsToNat s : Int))

/-- Coercion of one cell by `Column(int)` with `coerce=True` (pandas
`astype(int)`): missing cells raise, numeric cells truncate, text cells
must parse as integers. -/
def coerceIntVal : PdVal → Option Int
  | .na => none
  | .num q => some (ratTrunc q)
  | .str s => parseIntStr s

/-- Decimal rendering of an integer. -/
def intRender (i : Int) : List Char :=
  if i < 0 then '-' :: Nat.toDigits 10 i.natAbs else Nat.toDigits 10 i.natAbs

/-- Coercion of one cell by `Column(str)` with `coerce=True` (pandas
`astype(str)`): every cell becomes text; a missing cell renders as
`"nan"`; the exact rendering of a numeric cell is irrelevant to the
claims and is modelled as its exact-rational decimal form. -/
def coerceStrVal : PdVal → List Char
  | .na => ("nan").data
  | .num q =>
    if q.den = 1 then intRender q.num
    else intRender q.num ++ '/' :: Nat.toDigits 10 q.den
  | .str s => s

/-- Coercion of one cell by `Column(float, nullable=True)` with
`coerce=True`: missing cells are allowed, numeric cells pass through,
text cells must parse as numbers. -/
def coerceFloatVal : PdVal → Option PdVal
  | .na => some .na
  | .num q => some (.num q)
  | .str s => (parseNumeric s).map PdVal.num

/-- The pandera schema `SCHEMA` of `utils/data_prep.py` (lines 7-15)
applied by `SCHEMA.validate(df, lazy=True)`: the four declared columns
must be present; `"Sl. No."` is `object` and nullable (no constraint
beyond presence); `"State/UT"` is coerced to `str`; `"2022"` is coerced
to `int` and every value must satisfy `Check.ge(0)`; `"percentage"` is
coerced to nullable `float`.  Any failure raises (`none`); on success the
validated frame carries the coerced columns. -/
def SCHEMA_validate (df : PdFrame) : Option PdFrame :=
  (colNamed df (("Sl. No.").data)).bind fun _ =>
  (colNamed df (("State/UT").data)).bind fun stV =>
  (colNamed df (("2022").data)).bind fun yrV =>
  (colNamed df (("percentage").data)).bind fun pctV =>
  (mapOptionAll coerceIntVal yrV).bind fun yrI =>
  (mapOptionAll coerceFloatVal pctV).bind fun pctC =>
  if yrI.all (fun n => 0 ≤ n) then
    some (setColVals (setColVals (setColVals df
      (("State/UT").data) (stV.map (fun v => PdVal.str (coerceStrVal v))))
      (("2022").data) (yrI.map (fun n : Int => PdVal.num (n : Rat))))
      (("percentage").data) pctC)
  else none

/-- The function `load_data` of `utils/data_prep.py` (lines 17-20): read
the CSV (the parsed frame is this embedding's input; file I/O is the
collaborator boundary) and return `SCHEMA.validate(df, lazy=True)`,
which raises on any schema violation. -/
def load_data (df : PdFrame) : Option PdFrame := SCHEMA_validate df

/-- A Python heap of DataFrame objects: `frames[a]` is the frame at
address `a`.  Distinct addresses are independent objects; `df.copy()`
allocates a fresh address. -/
structure PyHeap where
  frames : List PdFrame

/-- The percentage of one cell: `(v / total) * 100` (missing propagates;
pandas raises `TypeError` on a text cell before assigning anything, so
its value never materializes — modelled as missing). -/
def pctVal (total : Rat) : PdVal → PdVal
  | .num q => .num (q / total * 100)
  | _ => .na

/-- The function `ensure_percentage_column` of `utils/data_prep.py`
(lines 22-27), with the object heap explicit: `out = df.copy()`
allocates a fresh frame at a fresh address; when the percentage column is
absent or has a missing cell, `out[pct_col] = (out[year_col]/total)*100`
mutates only the fresh object; the result is the new address. -/
def ensure_percentage_column (h : PyHeap) (dfAddr : Nat)
    (yearCol pctCol : List Char) : PyHeap × Nat :=
  let df := h.frames.getD dfAddr []
  let outAddr := h.frames.length
  let h1 : PyHeap := ⟨h.frames ++ [df]⟩
  let out := h1.frames.getD outAddr []
  if !(out.any (fun c => c.1 == pctCol)) ||
      ((colNamed out pctCol).getD []).any PdVal.isNA then
    let total := sumNums ((colNamed out yearCol).getD [])
    let newVals := ((colNamed out yearCol).getD []).map (pctVal total)
    (⟨h1.frames.set outAddr (setColPd out pctCol newVals)⟩, outAddr)
  else (h1, outAddr)

/-- A well-formed word list as produced by `pyWords`: every word is
non-empty and free of whitespace. -/
def NiceWords (W : List (List Char)) : Prop :=
  ∀ w ∈ W, w ≠ [] ∧ ∀ c ∈ w, isPySpace c = false

/-- The 21-row metric column of the claim C5 counterexample: twenty cells
`"1"` followed by one cell `"abc"`, all under the key `"x"`. -/
def probePassRows : List (List Char × PdVal) :=
  List.replicate 20 ((("x").data, PdVal.str ("1").data)) ++
    [(("x").data, PdVal.str ("abc").data)]

/-- The example uploaded table of claim C6: columns `Name`, `2022`, `Region`
with `Name` and `Region` textual (object dtype) and `2022` numeric. -/
def exampleCols : List PdCol :=
  [ ⟨("Name").data, PdDtype.objectD, [PdVal.str (("Odisha").data)]⟩,
    ⟨("2022").data, PdDtype.numericD, [PdVal.num 10]⟩,
    ⟨("Region").data, PdDtype.objectD, [PdVal.str (("East").data)]⟩ ]

/-- A concrete valid CSV frame for the `load_data` schema: one row with a
missing serial cell, state `Kerala`, count `3`, missing percentage. -/
def validDf : PdFrame :=
  [ (("Sl. No.").data, [PdVal.na]),
    (("State/UT").data, [PdVal.str (("Kerala").data)]),
    (("2022").data, [PdVal.num 3]),
    (("percentage").data, [PdVal.na]) ]


theorem ascii_cases {P : Char → Prop} [DecidablePred P]
    (h : ∀ n, n < 128 → P (Char.ofNat n)) : ∀ c : Char, c.toNat ≤ 127 → P c := by
  intro c hc
  have hp := h c.toNat (by omega)
  rwa [Char.ofNat_toNat] at hp

theorem pyLower_ascii : ∀ c : Char, c.toNat ≤ 127 → (pyLower c).toNat ≤ 127 :=
  ascii_cases (by decide)

theorem pyLower_isPySpace : ∀ c : Char, c.toNat ≤ 127 → isPySpace (pyLower c) = isPySpace c :=
  ascii_cases (by decide)

theorem pyLower_idem : ∀ c : Char, c.toNat ≤ 127 → pyLower (pyLower c) = pyLower c :=
  ascii_cases (by decide)

theorem pyLower_amp : ∀ c : Char, c.toNat ≤ 127 → (pyLower c = '&' → c = '&') :=
  ascii_cases (by decide)

theorem nfkdAsciiChar_ascii {c : Char} (hc : c.toNat ≤ 127) : nfkdAsciiChar c = [c] := by
  simp [nfkdAsciiChar, hc]

theorem mem_nfkdAsciiChar {c d : Char} (hd : d ∈ nfkdAsciiChar c) : d.toNat ≤ 127 := by
  unfold nfkdAsciiChar at hd
  split at hd
  · next h => simp at hd; rw [hd]; exact h
  · exact of_decide_eq_true (List.mem_filter.1 hd).2

theorem asciiFold_ascii {l : List Char} : ∀ c ∈ asciiFold l, c.toNat ≤ 127 := by
  induction l with
  | nil => intro c hc; cases hc
  | cons a as ih =>
    intro c hc
    rcases List.mem_append.1 hc with h | h
    · exact mem_nfkdAsciiChar h
    · exact ih c h

theorem asciiFold_fixed {l : List Char} (h : ∀ c ∈ l, c.toNat ≤ 127) : asciiFold l = l := by
  induction l with
  | nil => rfl
  | cons a as ih =>
    show nfkdAsciiChar a ++ asciiFold as = a :: as
    rw [nfkdAsciiChar_ascii (h a (List.mem_cons_self a as)),
      ih (fun c hc => h c (List.mem_cons_of_mem a hc))]
    rfl

theorem mem_replaceAmp {l : List Char} :
    ∀ c ∈ replaceAmp l, c = 'a' ∨ c = 'n' ∨ c = 'd' ∨ c ∈ l := by
  induction l with
  | nil => intro c hc; cases hc
  | cons a as ih =>
    intro c hc
    show c = 'a' ∨ c = 'n' ∨ c = 'd' ∨ c ∈ a :: as
    rcases List.mem_append.1 hc with h | h
    · split at h
      · simp at h
        rcases h with h | h | h
        · exact Or.inl h
        · exact Or.inr (Or.inl h)
        · exact Or.inr (Or.inr (Or.inl h))
      · simp at h
        subst h
        simp
    · rcases ih c h with h | h | h | h
      · exact Or.inl h
      · exact Or.inr (Or.inl h)
      · exact Or.inr (Or.inr (Or.inl h))
      · exact Or.inr (Or.inr (Or.inr (List.mem_cons_of_mem a h)))

theorem replaceAmp_no_amp {l : List Char} : '&' ∉ replaceAmp l := by
  induction l with
  | nil => intro hc; cases hc
  | cons a as ih =>
    intro hc
    rcases List.mem_append.1 hc with h | h
    · split at h
      · simp at h
      · next hne =>
        simp at h
        exact hne (beq_iff_eq.mpr h.symm)
    · exact ih h

theorem replaceAmp_fixed {l : List Char} (h : '&' ∉ l) : replaceAmp l = l := by
  induction l with
  | nil => rfl
  | cons a as ih =>
    show (if a == '&' then ['a', 'n', 'd'] else [a]) ++ replaceAmp as = a :: as
    have ha : ¬(a == '&') = true := by
      intro hb
      exact h (by rw [eq_of_beq hb]; exact List.mem_cons_self _ _)
    rw [if_neg ha, ih (fun hc => h (List.mem_cons_of_mem a hc))]
    rfl

theorem mem_dropWhile {p : Char → Bool} {l : List Char} :
    ∀ c ∈ l.dropWhile p, c ∈ l := by
  induction l with
  | nil => intro c hc; cases hc
  | cons a as ih =>
    intro c hc
    rw [List.dropWhile_cons] at hc
    split at hc
    · exact List.mem_cons_of_mem a (ih c hc)
    · exact hc

theorem dropWhile_head_eq_self {p : Char → Bool} {l : List Char}
    (h : ∀ c, l.head? = some c → p c = false) : l.dropWhile p = l := by
  cases l with
  | nil => rfl
  | cons a as => rw [List.dropWhile_cons, if_neg (by simp [h a rfl])]

theorem mem_pyStrip {l : List Char} : ∀ c ∈ pyStrip l, c ∈ l := by
  intro c hc
  unfold pyStrip at hc
  rw [List.mem_reverse] at hc
  have h1 := mem_dropWhile c hc
  rw [List.mem_reverse] at h1
  exact mem_dropWhile c h1

theorem pyWordsAux_nice : ∀ (l acc : List Char), (∀ c ∈ acc, isPySpace c = false) →
    NiceWords (pyWordsAux l acc) := by
  intro l
  induction l with
  | nil =>
    intro acc hacc
    by_cases hae : acc.isEmpty
    · rw [show pyWordsAux [] acc = [] from by simp [pyWordsAux, hae]]
      intro w hw; cases hw
    · rw [show pyWordsAux [] acc = [acc.reverse] from by simp [pyWordsAux, hae]]
      intro w hw
      simp at hw
      subst hw
      refine ⟨?_, ?_⟩
      · simp only [ne_eq, List.reverse_eq_nil_iff]
        intro h; rw [h] at hae; exact hae rfl
      · intro c hc; exact hacc c (List.mem_reverse.1 hc)
  | cons a as ih =>
    intro acc hacc
    by_cases hsp : isPySpace a = true
    · by_cases hae : acc.isEmpty
      · rw [show pyWordsAux (a :: as) acc = pyWordsAux as [] from by simp [pyWordsAux, hsp, hae]]
        exact ih [] (fun c hc => absurd hc (List.not_mem_nil c))
      · rw [show pyWordsAux (a :: as) acc = acc.reverse :: pyWordsAux as [] from by
          simp [pyWordsAux, hsp, hae]]
        intro w hw
        rcases List.mem_cons.1 hw with h | h
        · subst h
          refine ⟨?_, ?_⟩
          · simp only [ne_eq, List.reverse_eq_nil_iff]
            intro h; rw [h] at hae; exact hae rfl
          · intro c hc; exact hacc c (List.mem_reverse.1 hc)
        · exact ih [] (fun c hc => absurd hc (List.not_mem_nil c)) w h
    · rw [show pyWordsAux (a :: as) acc = pyWordsAux as (a :: acc) from by simp [pyWordsAux, hsp]]
      refine ih (a :: acc) ?_
      intro c hc
      rcases List.mem_cons.1 hc with h | h
      · subst h; exact Bool.not_eq_true _ ▸ (by simpa using hsp)
      · exact hacc c h

theorem pyWordsAux_mem : ∀ (l acc : List Char) (w : List Char) (c : Char),
    w ∈ pyWordsAux l acc → c ∈ w → c ∈ l ∨ c ∈ acc := by
  intro l
  induction l with
  | nil =>
    intro acc w c hw hc
    by_cases hae : acc.isEmpty
    · rw [show pyWordsAux [] acc = [] from by simp [pyWordsAux, hae]] at hw
      cases hw
    · rw [show pyWordsAux [] acc = [acc.reverse] from by simp [pyWordsAux, hae]] at hw
      simp at hw
      subst hw
      exact Or.inr (List.mem_reverse.1 hc)
  | cons a as ih =>
    intro acc w c hw hc
    by_cases hsp : isPySpace a = true
    · by_cases hae : acc.isEmpty
      · rw [show pyWordsAux (a :: as) acc = pyWordsAux as [] from by
          simp [pyWordsAux, hsp, hae]] at hw
        rcases ih [] w c hw hc with h | h
        · exact Or.inl (List.mem_cons_of_mem a h)
        · cases h
      · rw [show pyWordsAux (a :: as) acc = acc.reverse :: pyWordsAux as [] from by
          simp [pyWordsAux, hsp, hae]] at hw
        rcases List.mem_cons.1 hw with h | h
        · subst h; exact Or.inr (List.mem_reverse.1 hc)
        · rcases ih [] w c h hc with h2 | h2
          · exact Or.inl (List.mem_cons_of_mem a h2)
          · cases h2
    · rw [show pyWordsAux (a :: as) acc = pyWordsAux as (a :: acc) from by
        simp [pyWordsAux, hsp]] at hw
      rcases ih (a :: acc) w c hw hc with h | h
      · exact Or.inl (List.mem_cons_of_mem a h)
      · rcases List.mem_cons.1 h with h2 | h2
        · exact Or.inl (h2 ▸ List.mem_cons_self a as)
        · exact Or.inr h2

theorem pyWordsAux_append_word : ∀ (w : List Char), (∀ c ∈ w, isPySpace c = false) →
    ∀ (l acc : List Char), pyWordsAux (w ++ l) acc = pyWordsAux l (w.reverse ++ acc) := by
  intro w
  induction w with
  | nil => intro _ l acc; simp
  | cons a w' ih =>
    intro hw l acc
    have ha : isPySpace a = false := hw a (List.mem_cons_self a w')
    rw [List.cons_append,
      show pyWordsAux (a :: (w' ++ l)) acc = pyWordsAux (w' ++ l) (a :: acc) from by
        simp [pyWordsAux, ha],
      ih (fun c hc => hw c (List.mem_cons_of_mem a hc)) l (a :: acc)]
    simp

theorem joinWords_append_single : ∀ (W : List (List Char)) (y : List Char), W ≠ [] →
    joinWords (W ++ [y]) = joinWords W ++ ' ' :: y := by
  intro W
  induction W with
  | nil => intro y h; exact absurd rfl h
  | cons w ws ih =>
    intro y _
    cases ws with
    | nil => rfl
    | cons w' ws' =>
      rw [show (w :: w' :: ws') ++ [y] = w :: (w' :: ws' ++ [y]) from rfl]
      rw [show joinWords (w :: (w' :: ws' ++ [y])) = w ++ ' ' :: joinWords (w' :: ws' ++ [y])
        from by cases ws' <;> simp [joinWords]]
      rw [ih y (by simp), show joinWords (w :: w' :: ws') = w ++ ' ' :: joinWords (w' :: ws')
        from by simp [joinWords]]
      simp

theorem joinWords_reverse : ∀ (W : List (List Char)),
    (joinWords W).reverse = joinWords ((W.map List.reverse).reverse) := by
  intro W
  induction W with
  | nil => rfl
  | cons w ws ih =>
    cases ws with
    | nil => simp [joinWords]
    | cons w' ws' =>
      rw [show joinWords (w :: w' :: ws') = w ++ ' ' :: joinWords (w' :: ws')
        from by simp [joinWords]]
      rw [show ((w :: w' :: ws').map List.reverse).reverse
          = ((w' :: ws').map List.reverse).reverse ++ [w.reverse] from by simp]
      rw [joinWords_append_single _ _ (by simp), ← ih]
      simp

theorem NiceWords_reverse_map {W : List (List Char)} (h : NiceWords W) :
    NiceWords ((W.map List.reverse).reverse) := by
  intro w hw
  rw [List.mem_reverse] at hw
  rcases List.mem_map.1 hw with ⟨w0, hw0, rfl⟩
  rcases h w0 hw0 with ⟨hne, hch⟩
  refine ⟨by simp [hne], ?_⟩
  intro c hc
  exact hch c (List.mem_reverse.1 hc)

theorem dropWhile_joinWords {W : List (List Char)} (h : NiceWords W) :
    (joinWords W).dropWhile isPySpace = joinWords W := by
  cases W with
  | nil => rfl
  | cons w ws =>
    rcases h w (List.mem_cons_self w ws) with ⟨hne, hch⟩
    cases w with
    | nil => exact absurd rfl hne
    | cons d t =>
      have hd : isPySpace d = false := hch d (List.mem_cons_self d t)
      cases ws with
      | nil =>
        show List.dropWhile isPySpace (joinWords [d :: t]) = joinWords [d :: t]
        rw [show joinWords [d :: t] = d :: t from rfl]
        rw [List.dropWhile_cons, if_neg (by simp [hd])]
      | cons w' ws' =>
        rw [show joinWords ((d :: t) :: w' :: ws') = (d :: t) ++ ' ' :: joinWords (w' :: ws')
          from by simp [joinWords]]
        rw [List.cons_append, List.dropWhile_cons, if_neg (by simp [hd])]

theorem pyStrip_joinWords {W : List (List Char)} (h : NiceWords W) :
    pyStrip (joinWords W) = joinWords W := by
  unfold pyStrip
  rw [dropWhile_joinWords h, joinWords_reverse W,
    dropWhile_joinWords (NiceWords_reverse_map h), ← joinWords_reverse W,
    List.reverse_reverse]

theorem pyWords_joinWords {W : List (List Char)} (h : NiceWords W) :
    pyWords (joinWords W) = W := by
  induction W with
  | nil => rfl
  | cons w ws ih =>
    rcases h w (List.mem_cons_self w ws) with ⟨hne, hch⟩
    have hae : w.reverse.isEmpty = false := by
      cases w with
      | nil => exact absurd rfl hne
      | cons d t => simp
    cases ws with
    | nil =>
      show pyWordsAux (joinWords [w]) [] = [w]
      rw [show joinWords [w] = w ++ [] from by simp [joinWords],
        pyWordsAux_append_word w hch [] [], List.append_nil]
      rw [show pyWordsAux [] w.reverse = [w.reverse.reverse] from by
        simp [pyWordsAux, hae]]
      simp
    | cons w' ws' =>
      show pyWordsAux (joinWords (w :: w' :: ws')) [] = _
      rw [show joinWords (w :: w' :: ws') = w ++ ' ' :: joinWords (w' :: ws')
        from by simp [joinWords]]
      rw [pyWordsAux_append_word w hch _ [], List.append_nil]
      have hsp : isPySpace ' ' = true := rfl
      rw [show pyWordsAux (' ' :: joinWords (w' :: ws')) w.reverse
          = w.reverse.reverse :: pyWordsAux (joinWords (w' :: ws')) [] from by
        simp [pyWordsAux, hsp, hae]]
      have ihr := ih (fun x hx => h x (List.mem_cons_of_mem w hx))
      rw [show pyWordsAux (joinWords (w' :: ws')) [] = pyWords (joinWords (w' :: ws')) from rfl,
        ihr]
      simp

theorem mem_joinWords {W : List (List Char)} :
    ∀ c ∈ joinWords W, c = ' ' ∨ ∃ w ∈ W, c ∈ w := by
  induction W with
  | nil => intro c hc; cases hc
  | cons w ws ih =>
    intro c hc
    cases ws with
    | nil =>
      right
      exact ⟨w, List.mem_cons_self w [], by simpa [joinWords] using hc⟩
    | cons w' ws' =>
      rw [show joinWords (w :: w' :: ws') = w ++ ' ' :: joinWords (w' :: ws')
        from by simp [joinWords]] at hc
      rcases List.mem_append.1 hc with h | h
      · exact Or.inr ⟨w, List.mem_cons_self _ _, h⟩
      · rcases List.mem_cons.1 h with h | h
        · exact Or.inl h
        · rcases ih c h with h2 | ⟨w0, hw0, hcw⟩
          · exact Or.inl h2
          · exact Or.inr ⟨w0, List.mem_cons_of_mem w hw0, hcw⟩

theorem lowerStr_joinWords : ∀ (W : List (List Char)),
    lowerStr (joinWords W) = joinWords (W.map lowerStr) := by
  intro W
  induction W with
  | nil => rfl
  | cons w ws ih =>
    cases ws with
    | nil => rfl
    | cons w' ws' =>
      rw [show joinWords (w :: w' :: ws') = w ++ ' ' :: joinWords (w' :: ws')
        from by simp [joinWords]]
      have hsp : pyLower ' ' = ' ' := by decide
      rw [show lowerStr (w ++ ' ' :: joinWords (w' :: ws'))
          = lowerStr w ++ ' ' :: lowerStr (joinWords (w' :: ws')) from by
        simp [lowerStr, hsp]]
      rw [ih]
      simp [joinWords]

theorem map_fixed {α : Type} {f : α → α} {l : List α} (h : ∀ a ∈ l, f a = a) :
    l.map f = l := by
  induction l with
  | nil => rfl
  | cons a as ih =>
    simp [h a (List.mem_cons_self a as), ih (fun x hx => h x (List.mem_cons_of_mem a hx))]

theorem normalize_text_fix (s : Option (List Char)) :
    normalize_text (some (normalize_text s)) = normalize_text s := by
  cases s with
  | none => rfl
  | some s =>
    have hzascii : ∀ c ∈ replaceAmp (pyStrip (asciiFold s)), c.toNat ≤ 127 := by
      intro c hc
      rcases mem_replaceAmp c hc with h | h | h | h
      · rw [h]; decide
      · rw [h]; decide
      · rw [h]; decide
      · exact asciiFold_ascii c (mem_pyStrip c h)
    have hzamp : '&' ∉ replaceAmp (pyStrip (asciiFold s)) := replaceAmp_no_amp
    have hW0nice : NiceWords (pyWords (replaceAmp (pyStrip (asciiFold s)))) :=
      pyWordsAux_nice _ [] (fun c hc => absurd hc (List.not_mem_nil c))
    have hW0mem : ∀ w ∈ pyWords (replaceAmp (pyStrip (asciiFold s))),
        ∀ c ∈ w, c ∈ replaceAmp (pyStrip (asciiFold s)) := by
      intro w hw c hc
      rcases pyWordsAux_mem _ [] w c hw hc with h | h
      · exact h
      · cases h
    have hWnice : NiceWords ((pyWords (replaceAmp (pyStrip (asciiFold s)))).map lowerStr) := by
      intro w hw
      rcases List.mem_map.1 hw with ⟨w0, hw0, rfl⟩
      rcases hW0nice w0 hw0 with ⟨hne, hch⟩
      refine ⟨?_, ?_⟩
      · simp only [ne_eq, lowerStr, List.map_eq_nil_iff]
        exact hne
      · intro c hc
        rcases List.mem_map.1 hc with ⟨c0, hc0, rfl⟩
        rw [pyLower_isPySpace c0 (hzascii c0 (hW0mem w0 hw0 c0 hc0))]
        exact hch c0 hc0
    have hychar : ∀ c ∈ joinWords ((pyWords (replaceAmp (pyStrip (asciiFold s)))).map lowerStr),
        c.toNat ≤ 127 ∧ c ≠ '&' := by
      intro c hc
      rcases mem_joinWords c hc with h | ⟨w, hw, hcw⟩
      · rw [h]; exact ⟨by decide, by decide⟩
      · rcases List.mem_map.1 hw with ⟨w0, hw0, rfl⟩
        rcases List.mem_map.1 hcw with ⟨c0, hc0, rfl⟩
        have hc0a : c0.toNat ≤ 127 := hzascii c0 (hW0mem w0 hw0 c0 hc0)
        refine ⟨pyLower_ascii c0 hc0a, ?_⟩
        intro hamp
        exact hzamp ((pyLower_amp c0 hc0a hamp) ▸ hW0mem w0 hw0 c0 hc0)
    have hy : normalize_text (some s)
        = joinWords ((pyWords (replaceAmp (pyStrip (asciiFold s)))).map lowerStr) := by
      show lowerStr (joinWords (pyWords (replaceAmp (pyStrip (asciiFold s))))) = _
      rw [lowerStr_joinWords]
    rw [hy]
    show lowerStr (joinWords (pyWords (replaceAmp (pyStrip (asciiFold
      (joinWords ((pyWords (replaceAmp (pyStrip (asciiFold s)))).map lowerStr))))))) = _
    rw [asciiFold_fixed (fun c hc => (hychar c hc).1)]
    rw [pyStrip_joinWords hWnice]
    rw [replaceAmp_fixed (fun hc => (hychar '&' hc).2 rfl)]
    rw [pyWords_joinWords hWnice]
    rw [lowerStr_joinWords]
    have hmaplower : ((pyWords (replaceAmp (pyStrip (asciiFold s)))).map lowerStr).map lowerStr
        = (pyWords (replaceAmp (pyStrip (asciiFold s)))).map lowerStr := by
      refine map_fixed ?_
      intro w hw
      rcases List.mem_map.1 hw with ⟨w0, hw0, rfl⟩
      refine map_fixed ?_
      intro c hc
      rcases List.mem_map.1 hc with ⟨c0, hc0, rfl⟩
      exact pyLower_idem c0 (hzascii c0 (hW0mem w0 hw0 c0 hc0))
    rw [hmaplower]

theorem lookup_mem_assoc {α β : Type} [BEq α] [LawfulBEq α]
    {l : List (α × β)} {a : α} {b : β} (h : List.lookup a l = some b) : (a, b) ∈ l := by
  induction l with
  | nil => cases h
  | cons p ps ih =>
    rw [List.lookup_cons] at h
    split at h
    · next hb =>
      have ha : a = p.1 := eq_of_beq hb
      injection h with h2
      rw [ha, ← h2]
      exact List.mem_cons_self p ps
    · exact List.mem_cons_of_mem p (ih h)

/-- Claim C7: normalization is idempotent — for every string `x`,
`normalize_text(normalize_text(x)) = normalize_text(x)`. -/
theorem normalize_text_idempotent (x : List Char) :
    normalize_text (some (normalize_text (some x))) = normalize_text (some x) :=
  normalize_text_fix (some x)

/-- Claim C8: every value of `COMMON_NAME_MAP` is already in normalized
form (`normalize_text` fixes it), and consequently the output of
`apply_common_map` is always a fixed point of `normalize_text`. -/
theorem common_map_values_normalized :
    (∀ p ∈ COMMON_NAME_MAP, normalize_text (some p.2) = p.2) ∧
    (∀ s : Option (List Char),
      normalize_text (some (apply_common_map s)) = apply_common_map s) := by
  have hvals : ∀ p ∈ COMMON_NAME_MAP, normalize_text (some p.2) = p.2 := by decide
  refine ⟨hvals, ?_⟩
  intro s
  have happ : apply_common_map s
      = (List.lookup (normalize_text s) COMMON_NAME_MAP).getD (normalize_text s) := rfl
  rw [happ]
  cases h : List.lookup (normalize_text s) COMMON_NAME_MAP with
  | none =>
    simp only [Option.getD_none]
    exact normalize_text_fix s
  | some v =>
    simp only [Option.getD_some]
    exact hvals _ (lookup_mem_assoc h)

/-- Claim C2: for the records `("Odisha",10)`, `("Orissa",5)`, `("Kerala",3)`,
aggregation (canonicalization with `apply_common_map`, then group-by-sum)
yields exactly the mapping `orissa ↦ 15`, `kerala ↦ 3`: Odisha and Orissa map
to the same canonical key `"orissa"` and their metrics are summed, and Kerala
forms its own entry. -/
theorem aggregate_odisha_orissa_kerala :
    aggregateRecords
      [ (("Odisha").data, PdVal.num 10),
        (("Orissa").data, PdVal.num 5),
        (("Kerala").data, PdVal.num 3) ]
      = some [ (("kerala").data, PdVal.num 3), (("orissa").data, PdVal.num 15) ] ∧
    apply_common_map (some (("Odisha").data)) = ("orissa").data ∧
    apply_common_map (some (("Orissa").data)) = ("orissa").data ∧
    apply_common_map (some (("Kerala").data)) = ("kerala").data := by
  exact ⟨by with_unfolding_all decide, by decide, by decide, by decide⟩

theorem strLe_total : ∀ a b : List Char, strLeP a b ∨ strLeP b a := by
  intro a
  induction a with
  | nil => intro b; exact Or.inl rfl
  | cons x xs ih =>
    intro b
    cases b with
    | nil => exact Or.inr rfl
    | cons y ys =>
      rcases Nat.lt_trichotomy x.toNat y.toNat with h | h | h
      · exact Or.inl (by simp [strLeP, strLe, h])
      · have e1 : strLe (x :: xs) (y :: ys) = strLe xs ys := by
          simp [strLe, h]
        have e2 : strLe (y :: ys) (x :: xs) = strLe ys xs := by
          simp [strLe, h]
        rcases ih ys with h2 | h2
        · exact Or.inl (by rw [strLeP, e1]; exact h2)
        · exact Or.inr (by rw [strLeP, e2]; exact h2)
      · exact Or.inr (by simp [strLeP, strLe, h])

theorem strLe_cons_iff {x y : Char} {xs ys : List Char} :
    strLe (x :: xs) (y :: ys) = true ↔
      x.toNat < y.toNat ∨ (x.toNat = y.toNat ∧ strLe xs ys = true) := by
  rw [show strLe (x :: xs) (y :: ys)
      = (if x.toNat < y.toNat then true
         else if y.toNat < x.toNat then false else strLe xs ys) from rfl]
  by_cases h1 : x.toNat < y.toNat
  · rw [if_pos h1]
    constructor
    · intro _; exact Or.inl h1
    · intro _; rfl
  · by_cases h2 : y.toNat < x.toNat
    · rw [if_neg h1, if_pos h2]
      constructor
      · intro h; cases h
      · rintro (h | ⟨h, _⟩)
        · exact absurd h h1
        · omega
    · rw [if_neg h1, if_neg h2]
      constructor
      · intro h; exact Or.inr ⟨by omega, h⟩
      · rintro (h | ⟨_, h⟩)
        · exact absurd h h1
        · exact h

theorem strLe_trans : ∀ a b c : List Char, strLeP a b → strLeP b c → strLeP a c := by
  intro a
  induction a with
  | nil => intro b c _ _; rfl
  | cons x xs ih =>
    intro b c hab hbc
    cases b with
    | nil => exact absurd hab (by simp [strLeP, strLe])
    | cons y ys =>
      cases c with
      | nil => exact absurd hbc (by simp [strLeP, strLe])
      | cons z zs =>
        rw [strLeP, strLe_cons_iff] at hab ⊢
        rw [strLeP, strLe_cons_iff] at hbc
        rcases hab with h | ⟨e1, t1⟩ <;> rcases hbc with h2 | ⟨e2, t2⟩
        · exact Or.inl (by omega)
        · exact Or.inl (by omega)
        · exact Or.inl (by omega)
        · exact Or.inr ⟨by omega, ih ys zs t1 t2⟩

theorem sumNums_filter_na (vs : List PdVal) :
    sumNums (vs.filter (fun v => !(v.isNA))) = sumNums vs := by
  induction vs with
  | nil => rfl
  | cons v vs ih =>
    cases v with
    | na => simpa [List.filter_cons, PdVal.isNA, sumNums] using ih
    | num q => simpa [List.filter_cons, PdVal.isNA, sumNums] using ih
    | str s => simpa [List.filter_cons, PdVal.isNA, sumNums] using ih

theorem pdSum_num_na {vs : List PdVal}
    (h : ∀ v ∈ vs, v = PdVal.na ∨ ∃ q, v = PdVal.num q) :
    pdSum vs = some (PdVal.num (sumNums vs)) := by
  have hall : (vs.filter (fun v => !(v.isNA))).all PdVal.isNum = true := by
    rw [List.all_eq_true]
    intro v hv
    rcases h v (List.mem_filter.1 hv).1 with rfl | ⟨q, rfl⟩
    · have := (List.mem_filter.1 hv).2
      simp [PdVal.isNA] at this
    · rfl
  unfold pdSum
  rw [if_pos hall, sumNums_filter_na]

theorem mapOptionAll_some {α β : Type} {f : α → Option β} {g : α → β} {l : List α}
    (h : ∀ a ∈ l, f a = some (g a)) : mapOptionAll f l = some (l.map g) := by
  induction l with
  | nil => rfl
  | cons a as ih =>
    show (match f a, mapOptionAll f as with
      | some b, some bs => some (b :: bs)
      | _, _ => none) = _
    rw [h a (List.mem_cons_self a as), ih (fun x hx => h x (List.mem_cons_of_mem a hx))]
    rfl

/-- Claim C5 (amended): when the selected metric column holds only numeric or
missing cells (a numeric-dtype column), the group-by-sum aggregation never
aborts, and each group's value is the sum of its metric cells with missing
cells contributing zero. -/
theorem groupbySum_numeric_total (rows : List (List Char × PdVal))
    (h : ∀ r ∈ rows, r.2 = PdVal.na ∨ ∃ q, r.2 = PdVal.num q) :
    (groupbySum rows).isSome = true ∧
    groupbySum rows
      = some ((List.insertionSort strLeP (rows.map Prod.fst).dedup).map
          (fun k => (k, PdVal.num (sumNums ((rows.filter (fun r => r.1 == k)).map Prod.snd))))) := by
  have hmain : groupbySum rows
      = some ((List.insertionSort strLeP (rows.map Prod.fst).dedup).map
          (fun k => (k, PdVal.num (sumNums ((rows.filter (fun r => r.1 == k)).map Prod.snd))))) := by
    unfold groupbySum
    refine mapOptionAll_some ?_
    intro k _
    have hsub : ∀ v ∈ (rows.filter (fun r => r.1 == k)).map Prod.snd,
        v = PdVal.na ∨ ∃ q, v = PdVal.num q := by
      intro v hv
      rcases List.mem_map.1 hv with ⟨r, hr, rfl⟩
      exact h r (List.mem_filter.1 hr).1
    rw [pdSum_num_na hsub]
    rfl
  exact ⟨by rw [hmain]; rfl, hmain⟩

/-- Witness for the amended claim C5 at a concrete input: two rows with key
`"a"`, one numeric cell `2` and one missing cell. -/
theorem groupbySum_numeric_total_witness :
    (groupbySum [(("a").data, PdVal.num 2), (("a").data, PdVal.na)]).isSome = true ∧
    groupbySum [(("a").data, PdVal.num 2), (("a").data, PdVal.na)]
      = some ((List.insertionSort strLeP
            (([(("a").data, PdVal.num 2), (("a").data, PdVal.na)].map Prod.fst).dedup)).map
          (fun k => (k, PdVal.num (sumNums
            (([(("a").data, PdVal.num 2), (("a").data, PdVal.na)].filter
              (fun r => r.1 == k)).map Prod.snd))))) :=
  groupbySum_numeric_total [(("a").data, PdVal.num 2), (("a").data, PdVal.na)]
    (by
      intro r hr
      rcases List.mem_cons.1 hr with rfl | hr2
      · exact Or.inr ⟨2, rfl⟩
      · rcases List.mem_cons.1 hr2 with rfl | hr3
        · exact Or.inl rfl
        · cases hr3)

/-- Counterexample to claim C5 as stated: this metric column passes the
20-cell coercion probe (so it is selectable), yet aggregation does not treat
the non-numeric cell `"abc"` as zero — pandas concatenates the object cells,
producing the string `"11111111111111111111abc"` instead of the number 20. -/
theorem groupbySum_nonnumeric_not_zero :
    probeOk (probePassRows.map Prod.snd) = true ∧
    groupbySum probePassRows
      = some [(("x").data, PdVal.str (("11111111111111111111abc").data))] ∧
    PdVal.str (("11111111111111111111abc").data) ≠ PdVal.num 20 :=
  ⟨by decide, by decide, by decide⟩

/-- Counterexample to claim C1 as stated: with the aggregate mapping
`x ↦ -1` (a negative uploaded metric is never rejected), the region `x`
receives the defined metric value `-1`, which is not non-negative. -/
theorem annotate_negative_metric :
    annotateRegions [(("x").data)] [((("x").data), (-1 : Rat))]
      = [((("x").data), (-1 : Rat))] ∧ ¬((0 : Rat) ≤ -1) :=
  ⟨by decide, by decide⟩

/-- Claim C1 (amended): reconciliation gives every region the defined metric
value `A[canonicalName]` when present and `0.0` otherwise (non-negative
whenever every aggregate value is non-negative), and the unmatched report is
a sorted duplicate-free list holding exactly the canonical names of the
aggregate that are absent from the regions. -/
theorem reconcile_total (regions : List (List Char)) (agg : List (List Char × Rat))
    (hpos : ∀ p ∈ agg, 0 ≤ p.2) :
    (∀ i : Nat, (annotateRegions regions agg)[i]?
        = (regions[i]?).map (fun r => (r, (List.lookup r agg).getD 0))) ∧
    (∀ q ∈ annotateRegions regions agg, 0 ≤ q.2) ∧
    List.Sorted strLeP (unmatchedNames (agg.map Prod.fst) regions) ∧
    (unmatchedNames (agg.map Prod.fst) regions).Nodup ∧
    (∀ k, k ∈ unmatchedNames (agg.map Prod.fst) regions ↔
      (k ∈ agg.map Prod.fst ∧ k ∉ regions)) := by
  haveI ht : IsTotal (List Char) strLeP := ⟨strLe_total⟩
  haveI htr : IsTrans (List Char) strLeP := ⟨strLe_trans⟩
  refine ⟨?_, ?_, ?_, ?_, ?_⟩
  · intro i
    unfold annotateRegions
    apply List.getElem?_map
  · intro q hq
    rcases List.mem_map.1 hq with ⟨r, _, rfl⟩
    cases hl : List.lookup r agg with
    | none => simp [hl]
    | some v =>
      simp only [hl, Option.getD_some]
      exact hpos _ (lookup_mem_assoc hl)
  · exact List.sorted_insertionSort strLeP _
  · unfold unmatchedNames
    rw [(List.perm_insertionSort strLeP _).nodup_iff]
    exact (List.nodup_dedup _).filter _
  · intro k
    unfold unmatchedNames
    rw [List.mem_insertionSort, List.mem_filter, List.mem_dedup]
    constructor
    · rintro ⟨h1, h2⟩
      refine ⟨h1, ?_⟩
      intro hmem
      rw [Bool.not_eq_true', ← Bool.not_eq_true] at h2
      exact h2 (List.elem_iff.2 hmem)
    · rintro ⟨h1, h2⟩
      refine ⟨h1, ?_⟩
      rw [Bool.not_eq_true', ← Bool.not_eq_true]
      intro hc
      exact h2 (List.elem_iff.1 hc)

/-- Witness for the amended claim C1 at the end-to-end example of the spec:
regions Orissa, Kerala, Goa and aggregate `orissa ↦ 100`, `kerala ↦ 40`;
Goa receives the default `0`, Orissa its aggregate value `100`. -/
theorem reconcile_total_witness :
    (annotateRegions [(("orissa").data), (("kerala").data), (("goa").data)]
        [((("orissa").data), (100 : Rat)), ((("kerala").data), (40 : Rat))])[2]?
      = some ((("goa").data), (0 : Rat)) ∧
    (annotateRegions [(("orissa").data), (("kerala").data), (("goa").data)]
        [((("orissa").data), (100 : Rat)), ((("kerala").data), (40 : Rat))])[0]?
      = some ((("orissa").data), (100 : Rat)) := by
  have h := reconcile_total
    [(("orissa").data), (("kerala").data), (("goa").data)]
    [((("orissa").data), (100 : Rat)), ((("kerala").data), (40 : Rat))]
    (by
      intro p hp
      rcases List.mem_cons.1 hp with rfl | hp2
      · norm_num
      · rcases List.mem_cons.1 hp2 with rfl | hp3
        · norm_num
        · cases hp3)
  refine ⟨?_, ?_⟩
  · rw [h.1 2]; decide
  · rw [h.1 0]; decide

/-- Counterexample to claim C4 as stated: on a property mapping with no
entries at all the detector returns no key — `list(props.keys())[0]` raises
`IndexError` (modelled by `none`) instead of returning a property key. -/
theorem detect_state_key_empty_fails :
    (detect_state_key_from_props []).isSome = false := by decide

/-- Claim C4 (amended): for every non-empty property mapping the detector
returns some key of the mapping and never raises: preference-list match
first, then the plausible-place-name scan, then the first available key. -/
theorem find?_exists {α : Type} {p : α → Bool} {l : List α} (h : ∃ a ∈ l, p a = true) :
    ∃ b, l.find? p = some b := by
  induction l with
  | nil =>
    rcases h with ⟨a, ha, _⟩
    cases ha
  | cons x xs ih =>
    by_cases hx : p x = true
    · exact ⟨x, List.find?_cons_of_pos xs hx⟩
    · rcases h with ⟨a, ha, hpa⟩
      rcases List.mem_cons.1 ha with rfl | ha2
      · exact absurd hpa hx
      · rcases ih ⟨a, ha2, hpa⟩ with ⟨b, hb⟩
        refine ⟨b, ?_⟩
        rw [List.find?_cons_of_neg xs (by simp [hx]), hb]

theorem detect_state_key_total (props : List (List Char × List Char))
    (h : props ≠ []) :
    ∃ k, detect_state_key_from_props props = some k ∧ k ∈ props.map Prod.fst := by
  have hgoal : detect_state_key_from_props props
      = (match PROP_PREFS.find?
            (fun cand => (props.map Prod.fst).any (fun k => lowerStr k == cand)) with
         | some cand => (props.map Prod.fst).find? (fun k => lowerStr k == cand)
         | none =>
           match props.find? (fun kv => plausiblePlaceName kv.2) with
           | some kv => some kv.1
           | none => (props.map Prod.fst).head?) := rfl
  rw [hgoal]
  cases hf : PROP_PREFS.find?
      (fun cand => (props.map Prod.fst).any (fun k => lowerStr k == cand)) with
  | some cand =>
    have hc := List.find?_some hf
    rw [List.any_eq_true] at hc
    rcases find?_exists hc with ⟨k2, hk2⟩
    refine ⟨k2, ?_, List.mem_of_find?_eq_some hk2⟩
    show List.find? (fun k => lowerStr k == cand) (props.map Prod.fst) = some k2
    exact hk2
  | none =>
    cases hp : props.find? (fun kv => plausiblePlaceName kv.2) with
    | some kv =>
      exact ⟨kv.1, rfl, List.mem_map.2 ⟨kv, List.mem_of_find?_eq_some hp, rfl⟩⟩
    | none =>
      cases props with
      | nil => exact absurd rfl h
      | cons p ps => exact ⟨p.1, rfl, List.mem_cons_self _ _⟩

/-- Witness for the amended claim C4: a one-entry mapping whose key matches
no preference entry and whose value is not a plausible place name still
yields a key (the last-resort first key). -/
theorem detect_state_key_total_witness :
    ∃ k, detect_state_key_from_props [((("foo").data), (("!!").data))] = some k ∧
      k ∈ ([((("foo").data), (("!!").data))]).map Prod.fst :=
  detect_state_key_total [((("foo").data), (("!!").data))] (by decide)

theorem find?_first {α : Type} {p : α → Bool} {c : α} (pre post : List α)
    (hpre : ∀ x ∈ pre, p x = false) (hc : p c = true) :
    List.find? p (pre ++ c :: post) = some c := by
  induction pre with
  | nil => simpa using List.find?_cons_of_pos post hc
  | cons a as ih =>
    rw [List.cons_append,
      List.find?_cons_of_neg _ (by simp [hpre a (List.mem_cons_self a as)])]
    exact ih (fun x hx => hpre x (List.mem_cons_of_mem a hx))

/-- Claim C6: state-column detection picks, in priority order, the first
column whose lower-cased header contains `"state"` or `"ut"`; otherwise the
first object-dtype (textual) column; and fails only when no textual column
exists.  In particular, for the columns `Name`, `2022`, `Region` it picks
the first textual column `Name` rather than failing. -/
theorem detectStateCol_priority :
    (∀ (pre post : List PdCol) (c : PdCol), stateHeaderMatch c = true →
      (∀ x ∈ pre, stateHeaderMatch x = false) →
      detectStateCol (pre ++ c :: post) = some c.header) ∧
    (∀ (pre post : List PdCol) (c : PdCol),
      (∀ x ∈ pre ++ c :: post, stateHeaderMatch x = false) →
      c.dtype = PdDtype.objectD →
      (∀ x ∈ pre, x.dtype ≠ PdDtype.objectD) →
      detectStateCol (pre ++ c :: post) = some c.header) ∧
    (∀ cols : List PdCol,
      (∀ x ∈ cols, stateHeaderMatch x = false ∧ x.dtype ≠ PdDtype.objectD) →
      detectStateCol cols = none) ∧
    detectStateCol exampleCols = some (("Name").data) := by
  refine ⟨?_, ?_, ?_, by decide⟩
  · intro pre post c hc hpre
    unfold detectStateCol
    rw [find?_first pre post hpre hc]
  · intro pre post c hall hobj hpre
    unfold detectStateCol
    rw [List.find?_eq_none.2 (fun x hx => by simp [hall x hx])]
    rw [find?_first pre post
      (fun x hx => by simp [hpre x hx])
      (by simp [hobj])]
    rfl
  · intro cols hcols
    unfold detectStateCol
    rw [List.find?_eq_none.2 (fun x hx => by simp [(hcols x hx).1])]
    rw [List.find?_eq_none.2 (fun x hx => by simp [(hcols x hx).2])]
    rfl

/-- Witness for claim C6: the fallback branch applied to the `Name`, `2022`,
`Region` example, and the failure branch applied to a single numeric column. -/
theorem detectStateCol_priority_witness :
    detectStateCol exampleCols = some (("Name").data) ∧
    detectStateCol [⟨("2022").data, PdDtype.numericD, [PdVal.num 10]⟩] = none := by
  refine ⟨?_, ?_⟩
  · exact detectStateCol_priority.2.1 []
      [ ⟨("2022").data, PdDtype.numericD, [PdVal.num 10]⟩,
        ⟨("Region").data, PdDtype.objectD, [PdVal.str (("East").data)]⟩ ]
      ⟨("Name").data, PdDtype.objectD, [PdVal.str (("Odisha").data)]⟩
      (by decide) rfl (by intro x hx; cases hx)
  · exact detectStateCol_priority.2.2.1
      [⟨("2022").data, PdDtype.numericD, [PdVal.num 10]⟩]
      (by decide)

/-- Counterexample to claim C3 as stated: a dataset with zero textual and
zero numeric-coercible columns (here the empty column list) raises only the
`MissingNameColumn`-style failure — `st.stop()` halts the script at the
state-column check, so the `MissingMetricColumn`-style failure is never
raised as well. -/
theorem pipeline_empty_single_error :
    pipelineChecks [] = Except.error PipeErr.missingName ∧
    pipelineChecks [] ≠ Except.error PipeErr.missingMetric :=
  ⟨rfl, fun h => absurd (Except.error.inj h) (by decide)⟩

/-- Claim C3 (amended): a dataset with zero textual (object-dtype) columns
and zero numeric-coercible columns fails the state-column check, which runs
first and halts the run with the `MissingNameColumn`-style failure; the
metric check is never reached, so the two failures are never raised
together.  The order of the checks is deterministic: name column first,
then metric. -/
theorem pipeline_no_columns_missing_name (cols : List PdCol)
    (hobj : ∀ c ∈ cols, c.dtype ≠ PdDtype.objectD)
    (hnum : numericCandidates cols = []) :
    pipelineChecks cols = Except.error PipeErr.missingName ∧
    pipelineChecks cols ≠ Except.error PipeErr.missingMetric := by
  have hnil : cols = [] := by
    cases cols with
    | nil => rfl
    | cons c cs =>
      exfalso
      have hd : c.dtype = PdDtype.numericD := by
        cases hdt : c.dtype with
        | numericD => rfl
        | objectD => exact absurd hdt (hobj c (List.mem_cons_self c cs))
      have hmem : c.header ∈ numericCandidates (c :: cs) := by
        unfold numericCandidates
        apply List.mem_append_left
        apply List.mem_map.2
        refine ⟨c, ?_, rfl⟩
        rw [List.mem_filter]
        exact ⟨List.mem_cons_self c cs, by simp [hd]⟩
      rw [hnum] at hmem
      cases hmem
  subst hnil
  exact ⟨rfl, fun h => absurd (Except.error.inj h) (by decide)⟩

/-- Witness for the amended claim C3 at the concrete empty dataset. -/
theorem pipeline_no_columns_missing_name_witness :
    pipelineChecks [] = Except.error PipeErr.missingName ∧
    pipelineChecks [] ≠ Except.error PipeErr.missingMetric :=
  pipeline_no_columns_missing_name [] (fun c hc => absurd hc (List.not_mem_nil c)) (by decide)

theorem colNamed_setColVals_same (df : PdFrame) (n : List Char) (vs : List PdVal) :
    colNamed (setColVals df n vs) n = (colNamed df n).map (fun _ => vs) := by
  induction df with
  | nil => rfl
  | cons c cs ih =>
    show colNamed ((if c.1 == n then (c.1, vs) else c) :: setColVals cs n vs) n
        = (colNamed (c :: cs) n).map (fun _ => vs)
    by_cases hc : (c.1 == n) = true
    · rw [if_pos hc]
      unfold colNamed
      rw [List.find?_cons, List.find?_cons]
      simp [hc]
    · have hc2 : (c.1 == n) = false := by simpa using hc
      rw [if_neg hc]
      unfold colNamed
      rw [List.find?_cons, List.find?_cons]
      simp only [hc2]
      exact ih

theorem colNamed_setColVals_ne (df : PdFrame) {n n2 : List Char} (vs : List PdVal)
    (hne : n2 ≠ n) : colNamed (setColVals df n vs) n2 = colNamed df n2 := by
  induction df with
  | nil => rfl
  | cons c cs ih =>
    show colNamed ((if c.1 == n then (c.1, vs) else c) :: setColVals cs n vs) n2
        = colNamed (c :: cs) n2
    by_cases hc : (c.1 == n) = true
    · have hcn : c.1 = n := eq_of_beq hc
      have hp : (c.1 == n2) = false := by
        rw [beq_eq_false_iff_ne]
        intro he
        exact hne (by rw [← he, hcn])
      rw [if_pos hc]
      unfold colNamed
      rw [List.find?_cons, List.find?_cons]
      simp only [hp]
      exact ih
    · rw [if_neg hc]
      unfold colNamed
      rw [List.find?_cons, List.find?_cons]
      by_cases hp : (c.1 == n2) = true
      · simp [hp]
      · have hp2 : (c.1 == n2) = false := by simpa using hp
        simp only [hp2]
        exact ih

/-- Claim C10: whenever `load_data` returns a frame, the `"2022"` column
holds only integer values that are at least `0` and the `"State/UT"` column
holds only strings; any schema violation makes `load_data` raise (`none`)
instead of returning data. -/
theorem load_data_schema (df out : PdFrame) (h : load_data df = some out) :
    (∀ v ∈ (colNamed out (("2022").data)).getD [],
      ∃ n : Int, v = PdVal.num (n : Rat) ∧ 0 ≤ n) ∧
    (∀ v ∈ (colNamed out (("State/UT").data)).getD [],
      ∃ s : List Char, v = PdVal.str s) := by
  unfold load_data SCHEMA_validate at h
  rw [Option.bind_eq_some] at h
  rcases h with ⟨slV, hsl, h⟩
  rw [Option.bind_eq_some] at h
  rcases h with ⟨stV, hst, h⟩
  rw [Option.bind_eq_some] at h
  rcases h with ⟨yrV, hyr, h⟩
  rw [Option.bind_eq_some] at h
  rcases h with ⟨pctV, hpct, h⟩
  rw [Option.bind_eq_some] at h
  rcases h with ⟨yrI, hyrI, h⟩
  rw [Option.bind_eq_some] at h
  rcases h with ⟨pctC, hpctC, h⟩
  split at h
  case isFalse => cases h
  case isTrue hall =>
    injection h with hout
    subst hout
    have h2022 : colNamed (setColVals (setColVals (setColVals df
          (("State/UT").data) (stV.map (fun v => PdVal.str (coerceStrVal v))))
          (("2022").data) (yrI.map (fun n : Int => PdVal.num (n : Rat))))
          (("percentage").data) pctC) (("2022").data)
        = some (yrI.map (fun n : Int => PdVal.num (n : Rat))) := by
      rw [colNamed_setColVals_ne _ _ (by decide),
        colNamed_setColVals_same,
        colNamed_setColVals_ne _ _ (by decide),
        hyr]
      rfl
    have hstut : colNamed (setColVals (setColVals (setColVals df
          (("State/UT").data) (stV.map (fun v => PdVal.str (coerceStrVal v))))
          (("2022").data) (yrI.map (fun n : Int => PdVal.num (n : Rat))))
          (("percentage").data) pctC) (("State/UT").data)
        = some (stV.map (fun v => PdVal.str (coerceStrVal v))) := by
      rw [colNamed_setColVals_ne _ _ (by decide),
        colNamed_setColVals_ne _ _ (by decide),
        colNamed_setColVals_same,
        hst]
      rfl
    constructor
    · intro v hv
      rw [h2022] at hv
      simp only [Option.getD_some] at hv
      rcases List.mem_map.1 hv with ⟨m, hm, rfl⟩
      exact ⟨m, rfl, of_decide_eq_true (List.all_eq_true.1 hall m hm)⟩
    · intro v hv
      rw [hstut] at hv
      simp only [Option.getD_some] at hv
      rcases List.mem_map.1 hv with ⟨v0, _, rfl⟩
      exact ⟨coerceStrVal v0, rfl⟩

/-- Witness for claim C10 at the concrete valid frame `validDf` (for which
validation succeeds and returns the frame unchanged). -/
theorem load_data_schema_witness :
    (∀ v ∈ (colNamed validDf (("2022").data)).getD [],
      ∃ n : Int, v = PdVal.num (n : Rat) ∧ 0 ≤ n) ∧
    (∀ v ∈ (colNamed validDf (("State/UT").data)).getD [],
      ∃ s : List Char, v = PdVal.str s) :=
  load_data_schema validDf validDf (by with_unfolding_all decide)

/-- Claim C9: `ensure_percentage_column` never mutates its input frame: it
copies the frame to a fresh object, mutates only the copy, and returns the
fresh object's address; after the call the input address holds exactly the
rows, columns and values it held before. -/
theorem ensure_percentage_no_mutation (h : PyHeap) (a : Nat)
    (yearCol pctCol : List Char) (ha : a < h.frames.length) :
    ((ensure_percentage_column h a yearCol pctCol).1.frames[a]? = h.frames[a]?) ∧
    (ensure_percentage_column h a yearCol pctCol).2 ≠ a := by
  have hne : h.frames.length ≠ a := Nat.ne_of_gt ha
  have happ : (h.frames ++ [h.frames.getD a []])[a]? = h.frames[a]? :=
    List.getElem?_append_left ha
  simp only [ensure_percentage_column]
  split
  · refine ⟨?_, hne⟩
    show ((h.frames ++ [h.frames.getD a []]).set h.frames.length _)[a]? = _
    rw [List.getElem?_set_ne hne, happ]
  · exact ⟨happ, hne⟩

/-- Witness for claim C9 at a concrete one-frame heap. -/
theorem ensure_percentage_no_mutation_witness :
    ((ensure_percentage_column ⟨[validDf]⟩ 0 (("2022").data) (("percentage").data)).1.frames[0]?
      = (⟨[validDf]⟩ : PyHeap).frames[0]?) ∧
    (ensure_percentage_column ⟨[validDf]⟩ 0 (("2022").data) (("percentage").data)).2 ≠ 0 :=
  ensure_percentage_no_mutation ⟨[validDf]⟩ 0 (("2022").data) (("percentage").data)
    (by decide)
